import Mathlib

set_option maxHeartbeats 1000000

/-
  Verification of CrystFEL core behaviour against its specification.

  Shallow embedding: the relevant C functions are translated into Lean
  definitions (floating-point doubles become ℚ or ℝ; fallible code returns
  Option).  Each claim of the specification is then settled by a theorem
  about these definitions.
-/

/- ===================================================================
   Pixel-data flow of process_image (src/process_image.c).

   An image's pixel data is a per-panel collection of float arrays
   (image.dp).  We model it as a list of per-panel lists of rationals.
   =================================================================== -/

abbrev PanelData := List ℚ

abbrev ImageData := List PanelData

/-- Translation of backup_image_data (src/process_image.c lines 61-86):
makes a fresh copy of every panel's pixel array.  In a pure model a copy
is the value itself. -/
def backup_image_data (dp : ImageData) : ImageData := dp

/-- Translation of restore_image_data (src/process_image.c lines 89-100):
copies the backup back over the live pixel arrays, so the live data
becomes the backup. -/
def restore_image_data (_dp : ImageData) (bu : ImageData) : ImageData := bu

structure PixelFlowResult where
  dpPeakSearch : ImageData
  dpIntegration : ImageData

/-- Translation of the pixel-data flow of process_image (src/process_image.c
lines 228-350 and 439): snapshot before the optional median and noise
filters, peak search on the filtered data, restore of the snapshot before
integrate_all_5 runs.  The filter bodies live in libcrystfel/src/filters.c,
which is not part of this tree; since the claim holds for every filter, they
are taken as arbitrary functions on the pixel data.
mark_resolution_range_as_bad touches only the bad-pixel mask, not image.dp,
so it does not appear in the pixel-data flow. -/
def process_image_pixel_flow (dp0 : ImageData) (median_filter : ℤ)
    (noisefilter : Bool) (fmedian fnoise : ImageData → ImageData) :
    PixelFlowResult :=
  let prefilter := backup_image_data dp0
  let dp1 := if 0 < median_filter then fmedian dp0 else dp0
  let dp2 := if noisefilter then fnoise dp1 else dp1
  let dp3 := restore_image_data dp2 prefilter
  { dpPeakSearch := dp2, dpIntegration := dp3 }

/- ===================================================================
   Hit / non-hit control flow of process_image (src/process_image.c).
   =================================================================== -/

structure IndexArgsM where
  min_peaks : ℤ
  stream_nonhits : Bool
deriving DecidableEq

structure ChunkM where
  hit : Bool
  crystals : List ℕ
deriving DecidableEq

structure ProcessOutcome where
  hit : Bool
  indexingRan : Bool
  integrationRan : Bool
  chunk : Option ChunkM
deriving DecidableEq

/-- Translation of the hit/non-hit control flow of process_image
(src/process_image.c lines 379-455).  image.crystals is initialised empty
(line 212); when the found-peak count is below min_peaks the image is marked
as a non-hit and control jumps over indexing and integration, going to the
stream-write label only when iargs.stream_nonhits is set, and straight to
the exit label otherwise.  The crystals produced by index_pattern_3 in the
hit path are abstracted as a list of crystal handles.  write_chunk emits the
image's crystal list as the chunk's crystal blocks. -/
def process_image_flow (iargs : IndexArgsM) (n_peaks : ℤ)
    (indexed_crystals : List ℕ) : ProcessOutcome :=
  if n_peaks < iargs.min_peaks then
    { hit := false, indexingRan := false, integrationRan := false,
      chunk := if iargs.stream_nonhits then
                 some { hit := false, crystals := [] }
               else none }
  else
    { hit := true, indexingRan := true, integrationRan := true,
      chunk := some { hit := true, crystals := indexed_crystals } }

/-- Translation of the iargs default set in the main function of indexamajig
(src/indexamajig.c line 382): stream_nonhits starts as 1 and is cleared only
by the no-non-hits-in-stream option (line 442). -/
def indexamajig_default_stream_nonhits : Bool := true

/- ===================================================================
   Theorems for claims C1 and C2.
   =================================================================== -/

/-- Claim C1, counterexample: the claim says a below-min_peaks image still
gets a stream chunk.  With the no-non-hits-in-stream option
(stream_nonhits = false), an image with 3 peaks against min_peaks = 10 is
below threshold yet no chunk at all is written. -/
theorem process_image_nonhit_chunk_counterexample :
    (3 : ℤ) < (10 : ℤ) ∧
    (process_image_flow { min_peaks := 10, stream_nonhits := false } 3 []).chunk
      = none := by
  exact ⟨by decide, rfl⟩

/-- Claim C1, amended: for every image whose peak search finds fewer than
min_peaks peaks, process_image marks the image as a non-hit and skips
indexing and integration; a stream chunk is written if and only if
stream_nonhits is enabled (which is the default), and any chunk written for
such an image contains no crystal blocks. -/
theorem process_image_nonhit_flow (iargs : IndexArgsM) (n : ℤ)
    (cr : List ℕ) (h : n < iargs.min_peaks) :
    (process_image_flow iargs n cr).hit = false ∧
    (process_image_flow iargs n cr).indexingRan = false ∧
    (process_image_flow iargs n cr).integrationRan = false ∧
    ((process_image_flow iargs n cr).chunk =
      if iargs.stream_nonhits then some { hit := false, crystals := [] }
      else none) ∧
    (∀ ch, (process_image_flow iargs n cr).chunk = some ch →
      ch.crystals = []) ∧
    indexamajig_default_stream_nonhits = true := by
  simp only [process_image_flow, if_pos h]
  refine ⟨trivial, trivial, trivial, trivial, ?_, rfl⟩
  intro ch hch
  by_cases hs : iargs.stream_nonhits
  · simp only [if_pos hs, Option.some.injEq] at hch
    rw [← hch]
  · simp only [if_neg hs] at hch
    exact Option.noConfusion hch

/-- Witness for the amended claim C1 at a concrete input. -/
theorem process_image_nonhit_flow_witness :
    (3 : ℤ) < (10 : ℤ) ∧
    ((process_image_flow { min_peaks := 10, stream_nonhits := true } 3 []).hit
        = false ∧
      (process_image_flow { min_peaks := 10, stream_nonhits := true } 3
        []).indexingRan = false ∧
      (process_image_flow { min_peaks := 10, stream_nonhits := true } 3
        []).integrationRan = false ∧
      ((process_image_flow { min_peaks := 10, stream_nonhits := true } 3
          []).chunk =
        if ({ min_peaks := 10, stream_nonhits := true } : IndexArgsM).stream_nonhits
        then some { hit := false, crystals := [] } else none) ∧
      (∀ ch, (process_image_flow { min_peaks := 10, stream_nonhits := true } 3
          []).chunk = some ch → ch.crystals = []) ∧
      indexamajig_default_stream_nonhits = true) :=
  ⟨by decide,
   process_image_nonhit_flow { min_peaks := 10, stream_nonhits := true } 3 []
     (by decide)⟩

/-- Claim C2: integration never reads filtered pixel data.  For every image
and every combination of the optional median and noise filters (arbitrary
functions fm and fsn on pixel data), the pixel values handed to
integrate_all_5 are exactly the pre-filter snapshot, and peak search sees
the filtered copy. -/
theorem integration_reads_prefilter_snapshot (dp0 : ImageData)
    (mf : ℤ) (nf : Bool) (fm fsn : ImageData → ImageData) :
    (process_image_pixel_flow dp0 mf nf fm fsn).dpIntegration = dp0 ∧
    (process_image_pixel_flow dp0 mf nf fm fsn).dpPeakSearch =
      (if nf then fsn else id) ((if 0 < mf then fm else id) dp0) := by
  constructor
  · rfl
  · simp only [process_image_pixel_flow, restore_image_data,
      backup_image_data]
    by_cases hm : 0 < mf <;> by_cases hn : nf <;>
      simp [hm, hn]

/- ===================================================================
   Unit-cell transformations (libcrystfel/src/cell.c).

   A UnitCell is modelled by its Cartesian representation: the matrix
   whose rows are the real-space basis vectors a, b, c (exactly the
   matrix that cell_transform_gsl_direct builds from cell_get_cartesian),
   together with the lattice type, centering and unique-axis metadata
   carried by the C struct.  Doubles become exact rationals.
   =================================================================== -/

inductive LatticeTypeM
  | triclinic | monoclinic | orthorhombic | tetragonal
  | rhombohedral | hexagonal | cubic
deriving DecidableEq

structure UnitCellM where
  cart : Matrix (Fin 3) (Fin 3) ℚ
  lattice_type : LatticeTypeM
  centering : Char
  unique_axis : Char
deriving DecidableEq

/-- Translation of cell_transform_gsl_direct (cell.c lines 605-645):
the output cell is a copy of the input (cell_new_from_cell) whose
Cartesian matrix is replaced by m times the input's Cartesian matrix. -/
def cell_transform_gsl_direct (incell : UnitCellM)
    (m : Matrix (Fin 3) (Fin 3) ℚ) : UnitCellM :=
  { incell with cart := m * incell.cart }

/-- Translation of determine_centering (cell.c lines 691-713).  The body
computes transformed centering vectors, prints them, discards them, and
always returns the letter A regardless of the matrix and of the input
centering. -/
def determine_centering (_m : Matrix (Fin 3) (Fin 3) ℚ) (_cen : Char) :
    Char := 'A'

/-- Translation of cell_transform_rational (cell.c lines 726-762): apply the
matrix to the Cartesian representation, then set the centering determined by
determine_centering, failing if it reports the failure letter.  Lattice type
and unique axis are left as copied (the FIXME at line 759). -/
def cell_transform_rational (cell : UnitCellM)
    (m : Matrix (Fin 3) (Fin 3) ℚ) : Option UnitCellM :=
  let out := cell_transform_gsl_direct cell m
  let ncen := determine_centering m cell.centering
  if ncen = '*' then none
  else some { out with centering := ncen }

/-- Translation of rtnl_mtx_from_intmat composed with the rtnl_as_double
reads in the transform functions: the integer matrix cast entrywise to
rationals. -/
def intmat_to_rtnl (m : Matrix (Fin 3) (Fin 3) ℤ) :
    Matrix (Fin 3) (Fin 3) ℚ :=
  m.map (fun z => (z : ℚ))

/-- Translation of cell_transform_intmat (cell.c lines 775-782). -/
def cell_transform_intmat (cell : UnitCellM)
    (m : Matrix (Fin 3) (Fin 3) ℤ) : Option UnitCellM :=
  cell_transform_rational cell (intmat_to_rtnl m)

/-- Model of the GSL LU inversion used by cell_transform_rational_inverse:
the inverse exists exactly when the determinant is nonzero, and then equals
the adjugate divided by the determinant. -/
def inv3 (m : Matrix (Fin 3) (Fin 3) ℚ) : Matrix (Fin 3) (Fin 3) ℚ :=
  (m.det)⁻¹ • m.adjugate

/-- Translation of cell_transform_rational_inverse (cell.c lines 795-851):
invert the matrix (failing when it is singular, as the GSL LU inversion
does) and apply the inverse to the Cartesian representation.  Centering,
lattice type and unique axis are copied unchanged (the FIXME at
line 845). -/
def cell_transform_rational_inverse (cell : UnitCellM)
    (m : Matrix (Fin 3) (Fin 3) ℚ) : Option UnitCellM :=
  if m.det = 0 then none
  else some (cell_transform_gsl_direct cell (inv3 m))

/-- Translation of cell_transform_intmat_inverse (cell.c lines 864-871). -/
def cell_transform_intmat_inverse (cell : UnitCellM)
    (m : Matrix (Fin 3) (Fin 3) ℤ) : Option UnitCellM :=
  cell_transform_rational_inverse cell (intmat_to_rtnl m)

/-- A centred triclinic-style test cell with primitive centering, used to
evaluate the identity transformation. -/
def c3cell : UnitCellM :=
  { cart := !![50, 0, 0; 0, 60, 0; 0, 0, 70],
    lattice_type := LatticeTypeM.triclinic,
    centering := 'P',
    unique_axis := '?' }

/-- Determinant of the rational cast of an integer matrix is the cast of the
integer determinant. -/
theorem intmat_to_rtnl_det (m : Matrix (Fin 3) (Fin 3) ℤ) :
    (intmat_to_rtnl m).det = (m.det : ℚ) := by
  have : intmat_to_rtnl m = (Int.castRingHom ℚ).mapMatrix m := rfl
  rw [this, ← RingHom.map_det]
  rfl

/-- Left inverse property of the modelled LU inverse. -/
theorem inv3_mul_self (m : Matrix (Fin 3) (Fin 3) ℚ) (h : m.det ≠ 0) :
    inv3 m * m = 1 := by
  rw [inv3, Matrix.smul_mul, Matrix.adjugate_mul, smul_smul,
    inv_mul_cancel₀ h, one_smul]

/-- Claim C3: evaluation of the code at the failing input.  Applying the
identity transformation to a cell with primitive centering preserves the
nine Cartesian components, the lattice type and the unique axis, but
changes the centering to the letter A, because determine_centering ignores
its input and always returns that letter.  The specification says the cell
comes back equal. -/
theorem identity_transform_centering_bug :
    ∃ out, cell_transform_intmat c3cell 1 = some out ∧
      out.cart = c3cell.cart ∧
      out.lattice_type = c3cell.lattice_type ∧
      out.unique_axis = c3cell.unique_axis ∧
      c3cell.centering = 'P' ∧ out.centering = 'A' ∧
      out.centering ≠ c3cell.centering := by
  refine ⟨{ cart := c3cell.cart, lattice_type := c3cell.lattice_type,
            centering := 'A', unique_axis := c3cell.unique_axis },
          ?_, rfl, rfl, rfl, rfl, rfl, by decide⟩
  have h1 : intmat_to_rtnl 1 = 1 := by
    rw [intmat_to_rtnl]
    exact Matrix.map_one _ (by norm_num) (by norm_num)
  rw [cell_transform_intmat, h1, cell_transform_rational]
  simp [determine_centering, cell_transform_gsl_direct]

/-- Claim C4: for every unit cell and every invertible integer
transformation matrix, applying cell_transform_intmat and then
cell_transform_intmat_inverse with the same matrix returns a cell whose
nine Cartesian components match the original to within one part in a
million (here they agree exactly, rationals carrying no rounding). -/
theorem cell_transform_roundtrip (cell : UnitCellM)
    (m : Matrix (Fin 3) (Fin 3) ℤ) (h : m.det ≠ 0) :
    ∃ c1 c2, cell_transform_intmat cell m = some c1 ∧
      cell_transform_intmat_inverse c1 m = some c2 ∧
      ∀ i j, |c2.cart i j - cell.cart i j| ≤ |cell.cart i j| / 1000000 := by
  have hq : (intmat_to_rtnl m).det ≠ 0 := by
    rw [intmat_to_rtnl_det]
    exact_mod_cast h
  refine ⟨{ cart := intmat_to_rtnl m * cell.cart,
            lattice_type := cell.lattice_type,
            centering := 'A', unique_axis := cell.unique_axis },
          { cart := inv3 (intmat_to_rtnl m) * (intmat_to_rtnl m * cell.cart),
            lattice_type := cell.lattice_type,
            centering := 'A', unique_axis := cell.unique_axis },
          ?_, ?_, ?_⟩
  · rw [cell_transform_intmat, cell_transform_rational]
    simp [determine_centering, cell_transform_gsl_direct]
  · rw [cell_transform_intmat_inverse, cell_transform_rational_inverse,
      if_neg hq]
    rfl
  · intro i j
    have hc : inv3 (intmat_to_rtnl m) * (intmat_to_rtnl m * cell.cart)
        = cell.cart := by
      rw [← mul_assoc, inv3_mul_self _ hq, one_mul]
    simp only [hc, sub_self, abs_zero]
    positivity

/-- A concrete test cell for the round-trip witness. -/
def c4cell : UnitCellM :=
  { cart := !![28, 1, 0; 3, 31, 4; 5, 6, 40],
    lattice_type := LatticeTypeM.triclinic,
    centering := 'P',
    unique_axis := '?' }

/-- A concrete invertible integer transformation matrix. -/
def c4mat : Matrix (Fin 3) (Fin 3) ℤ := !![1, 1, 0; 0, 1, 0; 0, 0, 1]

/-- Witness for claim C4 at a concrete cell and matrix. -/
theorem cell_transform_roundtrip_witness :
    c4mat.det ≠ 0 ∧
    (∃ c1 c2, cell_transform_intmat c4cell c4mat = some c1 ∧
      cell_transform_intmat_inverse c1 c4mat = some c2 ∧
      ∀ i j, |c2.cart i j - c4cell.cart i j| ≤ |c4cell.cart i j| / 1000000) :=
  ⟨by decide, cell_transform_roundtrip c4cell c4mat (by decide)⟩

/- ===================================================================
   The file-wait loop of file_wait_open_read (src/process_image.c
   lines 103-145).

   The stat outcomes are a time-indexed oracle (seconds since the first
   check, one check per second because of the sleep(1) between retries).
   The loop is given fuel; a result of none means the fuel ran out with
   the loop still running, some none means the ERROR return, and
   some (some t) means the file was found at the check made at second t.
   =================================================================== -/

/-- Translation of the do/while stat loop of file_wait_open_read: keep
calling stat while it fails; retry after one second only while
wait_for_file is nonzero and the remaining wait time file_wait_time is
nonzero, decrementing the remaining time unless wait_for_file is -1. -/
def file_wait_stat (stat : ℕ → Bool) (wff : ℤ) :
    ℕ → ℤ → ℕ → Option (Option ℕ)
  | 0, _, _ => none
  | fuel + 1, fwt, t =>
    if stat t then some (some t)
    else if wff ≠ 0 ∧ fwt ≠ 0 then
      file_wait_stat stat wff fuel (if wff ≠ -1 then fwt - 1 else fwt) (t + 1)
    else some none

/-- Entry point of the loop: file_wait_time starts equal to
wait_for_file and checking starts at second 0. -/
def file_wait_open (stat : ℕ → Bool) (wff : ℤ) (fuel : ℕ) :
    Option (Option ℕ) :=
  file_wait_stat stat wff fuel wff 0

theorem file_wait_stat_all_fail (stat : ℕ → Bool) (n : ℤ) (hn : 0 < n) :
    ∀ (m : ℕ) (t : ℕ), (∀ j, j ≤ m → stat (t + j) = false) →
      file_wait_stat stat n (m + 1) (m : ℤ) t = some none := by
  intro m
  induction m with
  | zero =>
    intro t hf
    have h0 : stat t = false := by simpa using hf 0 (le_refl 0)
    simp [file_wait_stat, h0]
  | succ m ih =>
    intro t hf
    have h0 : stat t = false := by simpa using hf 0 (Nat.zero_le _)
    have hcond : n ≠ 0 ∧ ((m + 1 : ℕ) : ℤ) ≠ 0 := by
      constructor
      · exact ne_of_gt hn
      · exact_mod_cast Nat.succ_ne_zero m
    have hne : n ≠ -1 := by omega
    have hstep : (if n ≠ -1 then ((m + 1 : ℕ) : ℤ) - 1 else ((m + 1 : ℕ) : ℤ))
        = (m : ℤ) := by
      rw [if_pos hne]
      push_cast
      ring
    rw [file_wait_stat, h0]
    simp only [Bool.false_eq_true, if_false, if_pos hcond, hstep]
    exact ih (t + 1) (fun j hj => by
      have h2 := hf (j + 1) (by omega)
      have hshift : t + 1 + j = t + (j + 1) := by omega
      rw [hshift]
      exact h2)

theorem file_wait_stat_success (stat : ℕ → Bool) (n : ℤ) (hn : 0 < n) :
    ∀ (k m t : ℕ), k ≤ m → (∀ j, j < k → stat (t + j) = false) →
      stat (t + k) = true →
      file_wait_stat stat n (m + 1) (m : ℤ) t = some (some (t + k)) := by
  intro k
  induction k with
  | zero =>
    intro m t _ _ hk
    rw [file_wait_stat]
    simp only [Nat.add_zero] at hk
    simp [hk]
  | succ k ih =>
    intro m t hkm hf hk
    obtain ⟨m', rfl⟩ : ∃ m', m = m' + 1 := ⟨m - 1, by omega⟩
    have h0 : stat t = false := by simpa using hf 0 (Nat.succ_pos k)
    have hcond : n ≠ 0 ∧ ((m' + 1 : ℕ) : ℤ) ≠ 0 := by
      constructor
      · exact ne_of_gt hn
      · exact_mod_cast Nat.succ_ne_zero m'
    have hne : n ≠ -1 := by omega
    have hstep : (if n ≠ -1 then ((m' + 1 : ℕ) : ℤ) - 1
        else ((m' + 1 : ℕ) : ℤ)) = (m' : ℤ) := by
      rw [if_pos hne]
      push_cast
      ring
    rw [file_wait_stat, h0]
    simp only [Bool.false_eq_true, if_false, if_pos hcond, hstep]
    have hres := ih m' (t + 1) (by omega)
      (fun j hj => by
        have h2 := hf (j + 1) (by omega)
        have hshift : t + 1 + j = t + (j + 1) := by omega
        rw [hshift]
        exact h2)
      (by
        have : t + 1 + k = t + (k + 1) := by omega
        rw [this]
        exact hk)
    rw [hres]
    have : t + 1 + k = t + (k + 1) := by omega
    rw [this]

theorem file_wait_stat_minus_one_no_fail (stat : ℕ → Bool) :
    ∀ (fuel t : ℕ),
      file_wait_stat stat (-1) fuel (-1) t ≠ some none := by
  intro fuel
  induction fuel with
  | zero =>
    intro t h
    simp [file_wait_stat] at h
  | succ fuel ih =>
    intro t h
    rw [file_wait_stat] at h
    by_cases h0 : stat t
    · simp [h0] at h
    · simp only [h0, Bool.false_eq_true, if_false] at h
      have hcond : (-1 : ℤ) ≠ 0 ∧ (-1 : ℤ) ≠ 0 := by omega
      rw [if_pos hcond] at h
      have hx : (if (-1 : ℤ) ≠ -1 then (-1 : ℤ) - 1 else (-1 : ℤ)) = -1 := by
        norm_num
      rw [hx] at h
      exact ih (t + 1) h

theorem file_wait_stat_minus_one_success (stat : ℕ → Bool) :
    ∀ (k fuel t : ℕ), (∀ j, j < k → stat (t + j) = false) →
      stat (t + k) = true → k < fuel →
      file_wait_stat stat (-1) fuel (-1) t = some (some (t + k)) := by
  intro k
  induction k with
  | zero =>
    intro fuel t _ hk hfuel
    obtain ⟨f', rfl⟩ : ∃ f', fuel = f' + 1 := ⟨fuel - 1, by omega⟩
    rw [file_wait_stat]
    simp only [Nat.add_zero] at hk
    simp [hk]
  | succ k ih =>
    intro fuel t hf hk hfuel
    obtain ⟨f', rfl⟩ : ∃ f', fuel = f' + 1 := ⟨fuel - 1, by omega⟩
    have h0 : stat t = false := by simpa using hf 0 (Nat.succ_pos k)
    rw [file_wait_stat, h0]
    have hcond : (-1 : ℤ) ≠ 0 ∧ (-1 : ℤ) ≠ 0 := by omega
    simp only [Bool.false_eq_true, if_false, if_pos hcond]
    have hx : (if (-1 : ℤ) ≠ -1 then (-1 : ℤ) - 1 else (-1 : ℤ)) = -1 := by
      simp
    rw [hx]
    have hres := ih f' (t + 1)
      (fun j hj => by
        have h2 := hf (j + 1) (by omega)
        have hshift : t + 1 + j = t + (j + 1) := by omega
        rw [hshift]
        exact h2)
      (by
        have : t + 1 + k = t + (k + 1) := by omega
        rw [this]
        exact hk)
      (by omega)
    rw [hres]
    have : t + 1 + k = t + (k + 1) := by omega
    rw [this]

/-- Claim C6: with wait_for_file = 0 a missing file fails immediately with
no retry (the very first failed check returns the error); with
wait_for_file = n greater than 0 the loop re-checks at most n times at
one-second spacing, failing after the initial check plus n re-checks if the
file never appeared, and succeeding at the first second k at most n at
which it appears; with wait_for_file = -1 the loop never returns the error
(it waits indefinitely) and succeeds as soon as the file appears. -/
theorem file_wait_semantics :
    (∀ stat : ℕ → Bool, stat 0 = false →
      file_wait_open stat 0 1 = some none) ∧
    (∀ (stat : ℕ → Bool) (n : ℕ), 0 < n →
      (∀ t, t ≤ n → stat t = false) →
      file_wait_open stat (n : ℤ) (n + 1) = some none) ∧
    (∀ (stat : ℕ → Bool) (n k : ℕ), 0 < n → k ≤ n →
      (∀ t, t < k → stat t = false) → stat k = true →
      file_wait_open stat (n : ℤ) (n + 1) = some (some k)) ∧
    (∀ (stat : ℕ → Bool) (fuel : ℕ),
      file_wait_open stat (-1) fuel ≠ some none) ∧
    (∀ (stat : ℕ → Bool) (k fuel : ℕ),
      (∀ t, t < k → stat t = false) → stat k = true → k < fuel →
      file_wait_open stat (-1) fuel = some (some k)) := by
  refine ⟨?_, ?_, ?_, ?_, ?_⟩
  · intro stat h0
    simp [file_wait_open, file_wait_stat, h0]
  · intro stat n hn hf
    have := file_wait_stat_all_fail stat (n : ℤ) (by exact_mod_cast hn) n 0
      (fun j hj => by simpa using hf j hj)
    simpa [file_wait_open] using this
  · intro stat n k hn hk hf hs
    have := file_wait_stat_success stat (n : ℤ) (by exact_mod_cast hn)
      k n 0 hk (fun j hj => by simpa using hf j hj) (by simpa using hs)
    simpa [file_wait_open] using this
  · intro stat fuel
    exact file_wait_stat_minus_one_no_fail stat fuel 0
  · intro stat k fuel hf hs hfuel
    have := file_wait_stat_minus_one_success stat k fuel 0
      (fun j hj => by simpa using hf j hj) (by simpa using hs) hfuel
    simpa [file_wait_open] using this

/-- Witness for claim C6 at concrete oracles: a file that never appears
against wait_for_file = 2 fails, and a file appearing at second 1 against
wait_for_file = 2 is found. -/
theorem file_wait_semantics_witness :
    ((fun _ => false : ℕ → Bool) 0 = false ∧
      file_wait_open (fun _ => false) 0 1 = some none) ∧
    (file_wait_open (fun _ => false) (2 : ℤ) 3 = some none) ∧
    (file_wait_open (fun t => decide (t = 1)) (2 : ℤ) 3 = some (some 1)) ∧
    (file_wait_open (fun _ => false) (-1) 5 ≠ some none) ∧
    (file_wait_open (fun t => decide (t = 1)) (-1) 5 = some (some 1)) :=
  ⟨⟨rfl, file_wait_semantics.1 (fun _ => false) rfl⟩,
   file_wait_semantics.2.1 (fun _ => false) 2 (by decide)
     (fun t _ => rfl),
   file_wait_semantics.2.2.1 (fun t => decide (t = 1)) 2 1 (by decide)
     (by decide) (fun t ht => by
       interval_cases t
       · rfl) (by decide),
   file_wait_semantics.2.2.2.1 (fun _ => false) 5,
   file_wait_semantics.2.2.2.2 (fun t => decide (t = 1)) 1 5
     (fun t ht => by
       interval_cases t
       · rfl) (by decide) (by decide)⟩

/- ===================================================================
   The --tolerance option of indexamajig (src/indexamajig.c
   lines 1074-1085): sscanf with four %f conversions.
   =================================================================== -/

/-- Value of a decimal digit character. -/
def digitVal (c : Char) : ℕ := c.toNat - 48

/-- Greedy run of decimal digits: accumulated value, number of digits
consumed, rest of the input. -/
def takeDigitsAux : List Char → ℕ → ℕ → ℕ × ℕ × List Char
  | [], v, n => (v, n, [])
  | c :: rest, v, n =>
    if c.isDigit then takeDigitsAux rest (10 * v + digitVal c) (n + 1)
    else (v, n, c :: rest)

def takeDigits (s : List Char) : ℕ × ℕ × List Char := takeDigitsAux s 0 0

/-- Model of one %f conversion of sscanf (strtof on the decimal forms):
skip whitespace, optional sign, digits with an optional fractional part
(at least one digit in total), and an optional exponent which is consumed
only when well formed.  The converted value is kept exact as a rational;
the claim under test concerns only the shape of the input. -/
def scanFloat (s : List Char) : Option (ℚ × List Char) :=
  let s1 := s.dropWhile (fun c => c = ' ' ∨ c = '\t' ∨ c = '\n')
  let signAndRest : ℚ × List Char :=
    match s1 with
    | c :: rest =>
      if c = '-' then (-1, rest)
      else if c = '+' then (1, rest) else (1, s1)
    | [] => (1, s1)
  let sgn := signAndRest.1
  let s2 := signAndRest.2
  let ipart := takeDigits s2
  let fracAndRest : ℚ × ℕ × List Char :=
    match ipart.2.2 with
    | c :: rest =>
      if c = '.' then
        let fpart := takeDigits rest
        ((fpart.1 : ℚ) / 10 ^ fpart.2.1, fpart.2.1, fpart.2.2)
      else (0, 0, ipart.2.2)
    | [] => (0, 0, [])
  if ipart.2.1 + fracAndRest.2.1 = 0 then none
  else
    let mant : ℚ := sgn * ((ipart.1 : ℚ) + fracAndRest.1)
    let s3 := fracAndRest.2.2
    match s3 with
    | c :: rest =>
      if c = 'e' ∨ c = 'E' then
        let expSignAndRest : ℤ × List Char :=
          match rest with
          | d :: rest2 =>
            if d = '-' then (-1, rest2)
            else if d = '+' then (1, rest2) else (1, rest)
          | [] => (1, rest)
        let epart := takeDigits expSignAndRest.2
        if epart.2.1 = 0 then some (mant, s3)
        else some (mant * 10 ^ (expSignAndRest.1 * epart.1), epart.2.2)
      else some (mant, s3)
    | [] => some (mant, [])

/-- A literal comma in the sscanf format followed by a %f conversion. -/
def scanCommaFloat (s : List Char) : Option (ℚ × List Char) :=
  match s with
  | c :: r => if c = ',' then scanFloat r else none
  | [] => none

/-- Model of sscanf(toler, "%f,%f,%f,%f", ...) at src/indexamajig.c
line 1077: the number of successful conversions (EOF folded into zero)
together with the four converted values, unconverted slots keeping the
value 0. -/
def scanfFFFF (s : List Char) : ℕ × (ℚ × ℚ × ℚ × ℚ) :=
  match scanFloat s with
  | none => (0, (0, 0, 0, 0))
  | some (v1, r1) =>
    match scanCommaFloat r1 with
    | none => (1, (v1, 0, 0, 0))
    | some (v2, r2) =>
      match scanCommaFloat r2 with
      | none => (2, (v1, v2, 0, 0))
      | some (v3, r3) =>
        match scanCommaFloat r3 with
        | none => (3, (v1, v2, v3, 0))
        | some (v4, _) => (4, (v1, v2, v3, v4))

/-- Translation of the unit-cell tolerance parsing in the main function of
indexamajig (src/indexamajig.c lines 1074-1085): unless exactly four
conversions succeed the program prints an error and returns 1, which
happens before create_sandbox, so dispatch never begins.  none models that
fatal exit. -/
def parse_tolerance (toler : List Char) : Option (ℚ × ℚ × ℚ × ℚ) :=
  let r := scanfFFFF toler
  if r.1 = 4 then some r.2 else none

/-- Translation of the tolerance configuration phase: defaults from
src/indexamajig.c lines 349-352 when the option is absent, otherwise the
parse above. -/
def indexamajig_tolerance_phase (toler : Option (List Char)) :
    Option (ℚ × ℚ × ℚ × ℚ) :=
  match toler with
  | none => some (5, 5, 5, 3 / 2)
  | some s => parse_tolerance s

/-- Dispatch (create_sandbox) is reached only when the configuration phase
did not exit. -/
def indexamajig_dispatch_begins (toler : Option (List Char)) : Bool :=
  (indexamajig_tolerance_phase toler).isSome

/-- A four-value tolerance string: 0.1,0.2,0.3,1.5 -/
def c5four : List Char :=
  ['0', '.', '1', ',', '0', '.', '2', ',', '0', '.', '3', ',',
   '1', '.', '5']

/-- A six-value tolerance string: 0.1,0.2,0.3,1.5,1.5,1.5 -/
def c5six : List Char :=
  ['0', '.', '1', ',', '0', '.', '2', ',', '0', '.', '3', ',',
   '1', '.', '5', ',', '1', '.', '5', ',', '1', '.', '5']

/-- Claim C5, counterexample: the option does not take six comma-separated
values.  A four-value string, which under the claim is not of the required
form and should be a fatal configuration error, is accepted and dispatch
begins; a six-value string is not parsed as six values either: only four
conversions are made and the trailing values are ignored. -/
theorem tolerance_four_values_counterexample :
    (scanfFFFF c5four).1 = 4 ∧
    parse_tolerance c5four = some (scanfFFFF c5four).2 ∧
    indexamajig_dispatch_begins (some c5four) = true ∧
    (scanfFFFF c5six).1 = 4 ∧
    indexamajig_dispatch_begins (some c5six) = true := by
  have h4 : (scanfFFFF c5four).1 = 4 := by decide
  have h6 : (scanfFFFF c5six).1 = 4 := by decide
  have hp4 : parse_tolerance c5four = some (scanfFFFF c5four).2 := by
    rw [parse_tolerance]
    simp only [h4, if_pos]
  have hp6 : parse_tolerance c5six = some (scanfFFFF c5six).2 := by
    rw [parse_tolerance]
    simp only [h6, if_pos]
  refine ⟨h4, hp4, ?_, h6, ?_⟩
  · rw [indexamajig_dispatch_begins, indexamajig_tolerance_phase, hp4]
    rfl
  · rw [indexamajig_dispatch_begins, indexamajig_tolerance_phase, hp6]
    rfl

/-- Claim C5, amended: the cell-comparison tolerance option takes four
comma-separated values (length tolerances for a, b, c and one angle
tolerance), and a tolerance string from which four such values cannot be
read in that form is a fatal configuration error before dispatch begins;
anything after the fourth value is ignored. -/
theorem tolerance_parse_semantics (s : List Char) :
    ((scanfFFFF s).1 ≠ 4 →
      parse_tolerance s = none ∧
      indexamajig_dispatch_begins (some s) = false) ∧
    ((scanfFFFF s).1 = 4 →
      parse_tolerance s = some (scanfFFFF s).2 ∧
      indexamajig_dispatch_begins (some s) = true) := by
  constructor
  · intro h
    have hp : parse_tolerance s = none := by
      rw [parse_tolerance]
      simp [h]
    exact ⟨hp, by
      rw [indexamajig_dispatch_begins, indexamajig_tolerance_phase, hp]
      rfl⟩
  · intro h
    have hp : parse_tolerance s = some (scanfFFFF s).2 := by
      rw [parse_tolerance]
      simp [h]
    exact ⟨hp, by
      rw [indexamajig_dispatch_begins, indexamajig_tolerance_phase, hp]
      rfl⟩

/-- Witness for the amended claim C5: a two-value string fails fatally
before dispatch, a four-value string passes. -/
theorem tolerance_parse_semantics_witness :
    ((scanfFFFF ['0', '.', '1'] ).1 ≠ 4 ∧
      parse_tolerance ['0', '.', '1'] = none ∧
      indexamajig_dispatch_begins (some ['0', '.', '1'] ) = false) ∧
    ((scanfFFFF c5four).1 = 4 ∧
      parse_tolerance c5four = some (scanfFFFF c5four).2 ∧
      indexamajig_dispatch_begins (some c5four) = true) :=
  ⟨⟨by decide,
    ((tolerance_parse_semantics ['0', '.', '1'] ).1 (by decide)).1,
    ((tolerance_parse_semantics ['0', '.', '1'] ).1 (by decide)).2⟩,
   ⟨by decide,
    ((tolerance_parse_semantics c5four).2 (by decide)).1,
    ((tolerance_parse_semantics c5four).2 (by decide)).2⟩⟩

/- ===================================================================
   Miller index generation of predict_to_res
   (libcrystfel/src/geometry.c lines 492-568).
   =================================================================== -/

/-- Floor of the square root of a rational, by integer square root:
for q = a/b in lowest terms with q nonnegative, the floor of its real
square root is the integer square root of a*b divided by b. -/
def floorSqrtQ (q : ℚ) : ℤ :=
  if q ≤ 0 then 0
  else ((Nat.sqrt (q.num.toNat * q.den) / q.den : ℕ) : ℤ)

/-- Translation of the index-limit computation hmax = mres * modulus(...)
at geometry.c lines 524-526.  The C cast of the double product to int
truncates toward zero; for nonnegative mres this is the floor of
mres * sqrt(modsq), which equals the floor of sqrt(mres^2 * modsq).
The argument modsq is the squared modulus of the corresponding real-space
basis vector. -/
def index_limit (mres modsq : ℚ) : ℤ :=
  if 0 ≤ mres then floorSqrtQ (mres ^ 2 * modsq)
  else -floorSqrtQ (mres ^ 2 * modsq)

/-- Translation of the clamp at geometry.c lines 528-535: a limit of 512 or
more is reduced to 511 (with an error report), and prediction continues. -/
def clamp511 (v : ℤ) : ℤ := if 512 ≤ v then 511 else v

/-- The list of integers from lo to hi inclusive (the C for loop
for h = lo; h <= hi; h++). -/
def intRange (lo hi : ℤ) : List ℤ :=
  (List.range (hi - lo + 1).toNat).map (fun i => lo + Int.ofNat i)

/-- Translation of the candidate-generation triple loop of predict_to_res
(geometry.c lines 541-565) on already-clamped limits.  The per-candidate
filters (forbidden_reflection, the resolution cutoff, and acceptance by
check_reflection) only remove candidates; they are abstracted as a single
keep predicate. -/
def predict_to_res_loop (hmax kmax lmax : ℤ) (keep : ℤ → ℤ → ℤ → Bool) :
    List (ℤ × ℤ × ℤ) :=
  (intRange (-hmax) hmax).bind (fun h =>
    (intRange (-kmax) kmax).bind (fun k =>
      (intRange (-lmax) lmax).filterMap (fun l =>
        if keep h k l then some (h, k, l) else none)))

/-- Translation of predict_to_res (geometry.c lines 492-568) at the level
of generated Miller indices: compute the raw limits from the resolution
limit mres and the squared moduli of the three cell axes, clamp them at
511, and run the generation loop. -/
def predict_to_res_model (mres asq bsq csq : ℚ)
    (keep : ℤ → ℤ → ℤ → Bool) : List (ℤ × ℤ × ℤ) :=
  predict_to_res_loop (clamp511 (index_limit mres asq))
    (clamp511 (index_limit mres bsq)) (clamp511 (index_limit mres csq)) keep

theorem clamp511_le (v : ℤ) : clamp511 v ≤ 511 := by
  rw [clamp511]
  split <;> omega

theorem mem_intRange {lo hi x : ℤ} (h : x ∈ intRange lo hi) :
    lo ≤ x ∧ x ≤ hi := by
  rw [intRange] at h
  obtain ⟨i, hi2, hx⟩ := List.mem_map.mp h
  rw [List.mem_range] at hi2
  rw [Int.ofNat_eq_natCast] at hx
  omega

/-- Claim C9: predict_to_res never generates a reflection with a Miller
index of absolute value above 511: for every resolution limit and cell,
each generated index triple is bounded by 511 in absolute value, and when
a raw limit reaches 512 it is clamped to exactly 511 while prediction
continues. -/
theorem predict_to_res_index_bound (mres asq bsq csq : ℚ)
    (keep : ℤ → ℤ → ℤ → Bool) :
    (∀ hkl ∈ predict_to_res_model mres asq bsq csq keep,
      |hkl.1| ≤ 511 ∧ |hkl.2.1| ≤ 511 ∧ |hkl.2.2| ≤ 511) ∧
    (∀ v : ℤ, 512 ≤ v → clamp511 v = 511) := by
  constructor
  · intro hkl hmem
    rw [predict_to_res_model, predict_to_res_loop] at hmem
    simp only [List.mem_bind, List.mem_filterMap] at hmem
    obtain ⟨h, hh, k, hk, l, hl, hif⟩ := hmem
    have hb1 := mem_intRange hh
    have hb2 := mem_intRange hk
    have hb3 := mem_intRange hl
    have hc1 := clamp511_le (index_limit mres asq)
    have hc2 := clamp511_le (index_limit mres bsq)
    have hc3 := clamp511_le (index_limit mres csq)
    have : hkl = (h, k, l) := by
      by_cases hkeep : keep h k l
      · rw [if_pos hkeep] at hif
        exact (Option.some.injEq _ _ ▸ hif.symm)
      · rw [if_neg hkeep] at hif
        exact absurd hif (Option.noConfusion)
    subst this
    refine ⟨?_, ?_, ?_⟩ <;> simp only [abs_le] <;> omega
  · intro v hv
    rw [clamp511, if_pos hv]

/-- Witness for claim C9 at a concrete input: resolution limit 1 and a
unit axis give index limit 1, and the triple (1, 0, 0) is generated. -/
theorem predict_to_res_index_bound_witness :
    ((1 : ℤ), (0 : ℤ), (0 : ℤ)) ∈
      predict_to_res_model 1 1 0 0 (fun _ _ _ => true) ∧
    (|((1 : ℤ), (0 : ℤ), (0 : ℤ)).1| ≤ 511 ∧
      |((1 : ℤ), (0 : ℤ), (0 : ℤ)).2.1| ≤ 511 ∧
      |((1 : ℤ), (0 : ℤ), (0 : ℤ)).2.2| ≤ 511) ∧
    clamp511 600 = 511 := by
  have hlim : index_limit 1 1 = 1 := by
    norm_num [index_limit, floorSqrtQ, Rat.num_one, Rat.den_one,
      Nat.sqrt_one]
  have hlim0 : index_limit 1 0 = 0 := by
    norm_num [index_limit, floorSqrtQ]
  have hmem : ((1 : ℤ), (0 : ℤ), (0 : ℤ)) ∈
      predict_to_res_model 1 1 0 0 (fun _ _ _ => true) := by
    rw [predict_to_res_model, hlim, hlim0]
    decide
  exact ⟨hmem,
    (predict_to_res_index_bound 1 1 0 0 (fun _ _ _ => true)).1 _ hmem,
    by decide⟩

/- ===================================================================
   Prepared HDF5 peak lists: get_peaks_2
   (libcrystfel/src/hdf5-file.c lines 467-570).
   =================================================================== -/

structure PanelG where
  orig_min_fs : ℚ
  orig_max_fs : ℚ
  orig_min_ss : ℚ
  orig_max_ss : ℚ
  noIndex : Bool
deriving DecidableEq

structure FeatureM where
  fs : ℚ
  ss : ℚ
  panel : PanelG
  val : ℚ
deriving DecidableEq

/-- Modelled from the spec: find_orig_panel lives in
libcrystfel/src/detector.c, which is not part of this tree.  Per the
geometry data model (detector panels tile the data array in
file coordinates), it returns the first panel whose original data-array
rectangle contains the point, or nothing when the point lies on no
panel.  The noIndex field models the panel's no-indexing flag from the C
panel struct. -/
def find_orig_panel (det : List PanelG) (fs ss : ℚ) : Option PanelG :=
  det.find? (fun p =>
    decide (p.orig_min_fs ≤ fs) && decide (fs ≤ p.orig_max_fs) &&
    decide (p.orig_min_ss ≤ ss) && decide (ss ≤ p.orig_max_ss))

/-- The per-peak treatment in the loop of get_peaks_2 (hdf5-file.c lines
542-562): add the half-pixel offset, drop the peak when it lies on no
panel or on a noIndex panel, and otherwise convert its coordinates to
panel-relative by subtracting the panel's origin offsets. -/
def get_peaks_2_row (det : List PanelG) (off : ℚ) (row : ℚ × ℚ × ℚ) :
    Option FeatureM :=
  let fs := row.1 + off
  let ss := row.2.1 + off
  match find_orig_panel det fs ss with
  | none => none
  | some p =>
    if p.noIndex then none
    else some { fs := fs - p.orig_min_fs, ss := ss - p.orig_min_ss,
                panel := p, val := row.2.2 }

/-- Translation of the loop and return of get_peaks_2 (hdf5-file.c lines
542-569) on an already-read peak table (rows of fast-scan, slow-scan,
intensity): every row is processed as above and the function returns 0
regardless of how many rows were dropped.  The earlier error returns of
get_peaks_2 concern a missing or malformed HDF5 dataset, not peak
positions. -/
def get_peaks_2_model (det : List PanelG) (rows : List (ℚ × ℚ × ℚ))
    (half_pixel_shift : Bool) : ℤ × List FeatureM :=
  let off : ℚ := if half_pixel_shift then 1 / 2 else 0
  (0, rows.filterMap (get_peaks_2_row det off))

/-- Claim C10: get_peaks_2 returns success (0) even when some listed peaks
lie on no panel or on a noIndex panel; such peaks are silently dropped
(they produce no feature), and every retained peak comes from a row whose
shifted coordinates lie on a non-noIndex panel and has its coordinates
converted to panel-relative by subtracting the panel's origin offsets. -/
theorem get_peaks_2_semantics (det : List PanelG)
    (rows : List (ℚ × ℚ × ℚ)) (hps : Bool) :
    (get_peaks_2_model det rows hps).1 = 0 ∧
    (∀ row ∈ rows,
      find_orig_panel det (row.1 + (if hps then 1 / 2 else 0))
          (row.2.1 + (if hps then 1 / 2 else 0)) = none →
      get_peaks_2_row det (if hps then 1 / 2 else 0) row = none) ∧
    (∀ row ∈ rows, ∀ p,
      find_orig_panel det (row.1 + (if hps then 1 / 2 else 0))
          (row.2.1 + (if hps then 1 / 2 else 0)) = some p →
      p.noIndex = true →
      get_peaks_2_row det (if hps then 1 / 2 else 0) row = none) ∧
    (∀ f ∈ (get_peaks_2_model det rows hps).2, ∃ row ∈ rows, ∃ p,
      find_orig_panel det (row.1 + (if hps then 1 / 2 else 0))
          (row.2.1 + (if hps then 1 / 2 else 0)) = some p ∧
      p.noIndex = false ∧
      f = { fs := row.1 + (if hps then 1 / 2 else 0) - p.orig_min_fs,
            ss := row.2.1 + (if hps then 1 / 2 else 0) - p.orig_min_ss,
            panel := p, val := row.2.2 }) := by
  refine ⟨rfl, ?_, ?_, ?_⟩
  · intro row _ hnone
    rw [get_peaks_2_row]
    simp only [hnone]
  · intro row _ p hsome hni
    rw [get_peaks_2_row]
    simp only [hsome, hni, if_true]
  · intro f hf
    rw [get_peaks_2_model] at hf
    simp only [List.mem_filterMap] at hf
    obtain ⟨row, hrow, hres⟩ := hf
    rw [get_peaks_2_row] at hres
    refine ⟨row, hrow, ?_⟩
    split at hres
    · exact absurd hres (Option.noConfusion)
    · rename_i p hfind
      split at hres
      · exact absurd hres (Option.noConfusion)
      · rename_i hni
        refine ⟨p, hfind, by simpa using hni, ?_⟩
        exact (Option.some.injEq _ _ ▸ hres).symm

/-- Witness for claim C10 at concrete inputs: the call returns 0, a peak
on no panel is dropped, and a peak on a no-indexing panel is dropped. -/
theorem get_peaks_2_semantics_witness :
    (get_peaks_2_model [] [(40, 40, 7)] false).1 = 0 ∧
    get_peaks_2_row [] 0 (40, 40, 7) = none ∧
    get_peaks_2_row
      [{ orig_min_fs := 0, orig_max_fs := 9, orig_min_ss := 0,
         orig_max_ss := 9, noIndex := true }] 0 (4, 5, 100) = none := by
  have hdet : find_orig_panel ([] : List PanelG) ((40 : ℚ) + 0)
      ((40 : ℚ) + 0) = none := rfl
  have hfind : find_orig_panel
      [{ orig_min_fs := 0, orig_max_fs := 9, orig_min_ss := 0,
         orig_max_ss := 9, noIndex := true }]
      ((4 : ℚ) + 0) ((5 : ℚ) + 0) =
      some { orig_min_fs := 0, orig_max_fs := 9, orig_min_ss := 0,
             orig_max_ss := 9, noIndex := true } := by
    norm_num [find_orig_panel, List.find?]
  refine ⟨(get_peaks_2_semantics [] [(40, 40, 7)] false).1, ?_, ?_⟩
  · have h2 := (get_peaks_2_semantics [] [(40, 40, 7)] false).2.1
      (40, 40, 7) (List.mem_singleton.mpr rfl)
    simp only [if_neg] at h2 ⊢
    exact h2 hdet
  · have h3 := (get_peaks_2_semantics
      [{ orig_min_fs := 0, orig_max_fs := 9, orig_min_ss := 0,
         orig_max_ss := 9, noIndex := true }]
      [((4 : ℚ), (5 : ℚ), (100 : ℚ))] false).2.2.1
      (4, 5, 100) (List.mem_singleton.mpr rfl)
      { orig_min_fs := 0, orig_max_fs := 9, orig_min_ss := 0,
        orig_max_ss := 9, noIndex := true }
    simp only [if_neg] at h3 ⊢
    exact h3 hfind trivial

/- ===================================================================
   Reflection placement: locate_peak_on_panel, locate_peak and the
   placement step of check_reflection
   (libcrystfel/src/geometry.c lines 54-138 and 391-406).
   =================================================================== -/

structure PanelP where
  cnx : ℚ
  cny : ℚ
  fsx : ℚ
  fsy : ℚ
  fsz : ℚ
  ssx : ℚ
  ssy : ℚ
  ssz : ℚ
  clen : ℚ
  res : ℚ
  w : ℚ
  h : ℚ
deriving DecidableEq

/-- The coefficient matrix of the prediction equation set up at geometry.c
lines 82-90.  The panel dimensions w and h are the integer pixel counts of
the C struct, stored as rationals. -/
def panel_matrix (p : PanelP) : Matrix (Fin 3) (Fin 3) ℚ :=
  !![p.cnx, p.fsx, p.ssx; p.cny, p.fsy, p.ssy; p.clen * p.res, p.fsz, p.ssz]

/-- Translation of locate_peak_on_panel (geometry.c lines 54-113) from the
scattering direction vector t onward: solve the three-by-three system
M v = t (the Householder solve fails exactly on a singular matrix, which
the caller treats as not-on-this-panel), divide by the first solution
component, and accept exactly when 0 <= fs < w and 0 <= ss < h (the source
rejects fs < 0, fs >= w, ss < 0, ss >= h in turn).  The vector t itself is
computed in the source with transcendental trigonometry from the
reciprocal-space position and the predicted wavenumber; the containment
decision is independent of its value, so the model takes t as an input.
Rational division by a zero first component yields 0 here where C floating
point yields an infinity or NaN; the C checks reject the infinite
positions, and a NaN requires t to be parallel to the slow-scan basis
vector, which cannot happen for the unit-norm trigonometric t. -/
def solve_fs_ss (M : Matrix (Fin 3) (Fin 3) ℚ) (t : ℚ × ℚ × ℚ) :
    ℚ × ℚ :=
  let v := Matrix.mulVec (inv3 M) ![t.1, t.2.1, t.2.2]
  (v 1 / v 0, v 2 / v 0)

def locate_peak_on_panel (t : ℚ × ℚ × ℚ) (p : PanelP) :
    Option (ℚ × ℚ) :=
  if (panel_matrix p).det = 0 then none
  else if 0 ≤ (solve_fs_ss (panel_matrix p) t).1 ∧
      (solve_fs_ss (panel_matrix p) t).1 < p.w ∧
      0 ≤ (solve_fs_ss (panel_matrix p) t).2 ∧
      (solve_fs_ss (panel_matrix p) t).2 < p.h then
    some (solve_fs_ss (panel_matrix p) t)
  else none

/-- Translation of the panel loop of locate_peak (geometry.c lines
115-138): try the panels in order, returning the index of the first panel
on which the peak lands, or nothing (the C -1) when it lands on none. -/
def locate_peak_aux (t : ℚ × ℚ × ℚ) :
    List PanelP → ℕ → Option (ℕ × ℚ × ℚ)
  | [], _ => none
  | p :: rest, i =>
    match locate_peak_on_panel t p with
    | some (fs, ss) => some (i, fs, ss)
    | none => locate_peak_aux t rest (i + 1)

def locate_peak (t : ℚ × ℚ × ℚ) (det : List PanelP) :
    Option (ℕ × ℚ × ℚ) :=
  locate_peak_aux t det 0

structure ReflPos where
  hkl : ℤ × ℤ × ℤ
  fs : ℚ
  ss : ℚ
  panelIdx : ℕ
deriving DecidableEq

/-- Translation of the placement step of check_reflection for a newly
predicted reflection with a detector present (geometry.c lines 391-406):
when locate_peak reports no panel the reflection is freed and not added;
otherwise its detector position and owning panel are the ones found.  The
scattering direction is obtained from the candidate through the ray
function (trigonometric in the source). -/
def check_reflection_place (det : List PanelP)
    (ray : ℤ × ℤ × ℤ → ℚ × ℚ × ℚ) (cand : ℤ × ℤ × ℤ) : Option ReflPos :=
  match locate_peak (ray cand) det with
  | none => none
  | some (i, fs, ss) => some { hkl := cand, fs := fs, ss := ss, panelIdx := i }

/-- The reflection list built by the prediction loop, placement part:
candidates surviving check_reflection are appended in order. -/
def predict_positions (det : List PanelP)
    (ray : ℤ × ℤ × ℤ → ℚ × ℚ × ℚ) (cands : List (ℤ × ℤ × ℤ)) :
    List ReflPos :=
  cands.filterMap (check_reflection_place det ray)

theorem locate_peak_on_panel_bounds {t : ℚ × ℚ × ℚ} {p : PanelP}
    {fs ss : ℚ} (h : locate_peak_on_panel t p = some (fs, ss)) :
    0 ≤ fs ∧ fs < p.w ∧ 0 ≤ ss ∧ ss < p.h := by
  rw [locate_peak_on_panel] at h
  split at h
  · exact absurd h (Option.noConfusion)
  · split at h
    · rename_i hcond
      rw [Option.some.injEq] at h
      rw [h] at hcond
      simpa using hcond
    · exact absurd h (Option.noConfusion)

theorem locate_peak_aux_spec (t : ℚ × ℚ × ℚ) :
    ∀ (l : List PanelP) (i0 i : ℕ) (fs ss : ℚ),
      locate_peak_aux t l i0 = some (i, fs, ss) →
      ∃ p, l.get? (i - i0) = some p ∧
        locate_peak_on_panel t p = some (fs, ss) ∧ i0 ≤ i := by
  intro l
  induction l with
  | nil =>
    intro i0 i fs ss h
    exact absurd h (Option.noConfusion)
  | cons p rest ih =>
    intro i0 i fs ss h
    rw [locate_peak_aux] at h
    split at h
    · rename_i fs' ss' heq
      rw [Option.some.injEq, Prod.mk.injEq] at h
      obtain ⟨h1, h23⟩ := h
      rw [Prod.mk.injEq] at h23
      obtain ⟨h2, h3⟩ := h23
      subst h1
      subst h2
      subst h3
      rw [Nat.sub_self]
      exact ⟨p, rfl, heq, le_refl _⟩
    · obtain ⟨q, hq, hq2, hq3⟩ := ih (i0 + 1) i fs ss h
      refine ⟨q, ?_, hq2, by omega⟩
      have : i - i0 = (i - (i0 + 1)) + 1 := by omega
      rw [this]
      exact hq

/-- Claim C7: every reflection in the reflection list produced by
prediction has a detector position inside its owning panel's rectangle
(0 <= fs < w and 0 <= ss < h), for every detector, ray function and
candidate list; and a candidate whose position falls outside every panel
(locate_peak reports none) is discarded rather than added. -/
theorem predicted_positions_on_panel (det : List PanelP)
    (ray : ℤ × ℤ × ℤ → ℚ × ℚ × ℚ) (cands : List (ℤ × ℤ × ℤ)) :
    (∀ r ∈ predict_positions det ray cands,
      ∃ p, det.get? r.panelIdx = some p ∧
        0 ≤ r.fs ∧ r.fs < p.w ∧ 0 ≤ r.ss ∧ r.ss < p.h) ∧
    (∀ cand ∈ cands, locate_peak (ray cand) det = none →
      check_reflection_place det ray cand = none) := by
  constructor
  · intro r hr
    rw [predict_positions] at hr
    obtain ⟨cand, _, hres⟩ := List.mem_filterMap.mp hr
    rw [check_reflection_place] at hres
    split at hres
    · exact absurd hres (Option.noConfusion)
    · rename_i i fs ss heq
      obtain ⟨q, hq1, hq2, _⟩ := locate_peak_aux_spec (ray cand) det 0 i fs ss heq
      have hbounds := locate_peak_on_panel_bounds hq2
      rw [Option.some.injEq] at hres
      subst hres
      rw [Nat.sub_zero] at hq1
      exact ⟨q, hq1, hbounds⟩
  · intro cand _ hnone
    rw [check_reflection_place]
    simp only [hnone]

/-- A panel whose prediction matrix is the identity, ten pixels square. -/
def c7panel : PanelP :=
  { cnx := 1, cny := 0, fsx := 0, fsy := 1, fsz := 0,
    ssx := 0, ssy := 0, ssz := 1, clen := 0, res := 5, w := 10, h := 10 }

/-- The reflection produced on that panel by the witness candidate. -/
def c7refl : ReflPos :=
  { hkl := (1, 2, 3), fs := 3 / 2, ss := 1 / 2, panelIdx := 0 }

/-- Witness for claim C7 at a concrete detector: a candidate landing at
(3/2, 1/2) on the panel is kept with its position inside the panel
rectangle, and a candidate landing on no panel is discarded. -/
theorem predicted_positions_on_panel_witness :
    (c7refl ∈
      predict_positions [c7panel] (fun _ => (2, 3, 1)) [(1, 2, 3)]) ∧
    (∃ p, [c7panel].get? c7refl.panelIdx = some p ∧
      0 ≤ c7refl.fs ∧ c7refl.fs < p.w ∧
      0 ≤ c7refl.ss ∧ c7refl.ss < p.h) ∧
    check_reflection_place [] (fun _ => (2, 3, 1)) (9, 9, 9) = none := by
  have hpm : panel_matrix c7panel = 1 := by
    rw [Matrix.one_fin_three]
    ext i j
    fin_cases i <;> fin_cases j <;> norm_num [panel_matrix, c7panel]
  have hinv : inv3 (1 : Matrix (Fin 3) (Fin 3) ℚ) = 1 := by
    rw [inv3, Matrix.det_one, Matrix.adjugate_one, inv_one, one_smul]
  have hsolve : solve_fs_ss (1 : Matrix (Fin 3) (Fin 3) ℚ)
      ((2 : ℚ), (3 : ℚ), (1 : ℚ)) = (3 / 2, 1 / 2) := by
    rw [solve_fs_ss, hinv]
    norm_num [Matrix.one_mulVec]
  have hlp : locate_peak_on_panel ((2 : ℚ), (3 : ℚ), (1 : ℚ)) c7panel
      = some (3 / 2, 1 / 2) := by
    rw [locate_peak_on_panel, hpm, hsolve]
    norm_num [c7panel]
  have hloc : locate_peak ((2 : ℚ), (3 : ℚ), (1 : ℚ)) [c7panel]
      = some (0, 3 / 2, 1 / 2) := by
    rw [locate_peak, locate_peak_aux, hlp]
  have hplace : check_reflection_place [c7panel] (fun _ => (2, 3, 1))
      (1, 2, 3) = some c7refl := by
    rw [check_reflection_place]
    rw [show locate_peak ((fun _ => ((2 : ℚ), (3 : ℚ), (1 : ℚ)))
        (((1 : ℤ), (2 : ℤ), (3 : ℤ)))) [c7panel] = some (0, 3 / 2, 1 / 2)
      from hloc]
    rfl
  have hmem : c7refl ∈
      predict_positions [c7panel] (fun _ => (2, 3, 1)) [(1, 2, 3)] := by
    rw [predict_positions]
    exact List.mem_filterMap.mpr
      ⟨(1, 2, 3), List.mem_singleton.mpr rfl, hplace⟩
  refine ⟨hmem, ?_, ?_⟩
  · exact (predicted_positions_on_panel [c7panel] (fun _ => (2, 3, 1))
      [(1, 2, 3)]).1 _ hmem
  · exact (predicted_positions_on_panel [] (fun _ => (2, 3, 1))
      [(9, 9, 9)]).2 (9, 9, 9) (List.mem_singleton.mpr rfl) rfl

/- ===================================================================
   XSphere partialities: ginn_spectrum_partialities and do_integral
   (libcrystfel/src/geometry.c lines 623-739 and 742-810).

   These functions are transcendental (square roots, Gaussian densities),
   so this section models doubles as real numbers; its definitions are
   necessarily not executable and its concrete evaluations are done by
   rewriting.
   =================================================================== -/

structure GaussianM where
  kcen : ℝ
  sigma : ℝ
  area : ℝ

structure SpectrumM where
  gaussians : List GaussianM
  kmin : ℝ
  kmax : ℝ

/-- Modelled from the spec: spectrum_get_density_at_k lives in
libcrystfel/src/spectrum.c, which is not part of this tree.  The spec
describes the spectrum as a weighted sum of Gaussians in k, so the density
at k is the sum of the Gaussian densities weighted by their areas. -/
noncomputable def spectrum_density (sp : SpectrumM) (k : ℝ) : ℝ :=
  (sp.gaussians.map (fun g =>
    g.area * Real.exp (-(k - g.kcen) ^ 2 / (2 * g.sigma ^ 2)) /
      (g.sigma * Real.sqrt (2 * Real.pi)))).sum

/-- Translation of the reflection-profile term of the integrand
(geometry.c lines 708-709 and 715): p = pref + 1/2 - kp/(2R) with
pref = sqrt(q2 + kp^2 + 2 zl kp)/(2R), and P = 4p(1-p). -/
noncomputable def rlp_profile (q2 zl R kp : ℝ) : ℝ :=
  4 * (Real.sqrt (q2 + kp ^ 2 + 2 * zl * kp) / (2 * R) + 1 / 2 -
      kp / (2 * R)) *
    (1 - (Real.sqrt (q2 + kp ^ 2 + 2 * zl * kp) / (2 * R) + 1 / 2 -
      kp / (2 * R)))

/-- The assert((isinf(k0) AND isinf(k1)) OR k0 > k1) of do_integral
(geometry.c line 654), with a negative computed bound standing for
+infinity (the replacement at lines 642-643). -/
abbrev k_assert_ok (k0x k1x : ℝ) : Prop :=
  (k0x < 0 ∧ k1x < 0) ∨ (k0x < 0 ∧ ¬(k1x < 0)) ∨
    (¬(k0x < 0) ∧ ¬(k1x < 0) ∧ k1x < k0x)

/-- Translation of the six-case range selection of do_integral
(geometry.c lines 656-680).  A computed bound below zero stands for
+infinity after the replacement at lines 642-643, so a comparison
x < k is true outright when k is negative.  none is the early
return 0.0 of cases 1 and 6. -/
noncomputable def integration_range (k0x k1x kmin kmax : ℝ) :
    Option (ℝ × ℝ) :=
  if k1x < 0 ∨ kmin < k1x then
    if k1x < 0 ∨ kmax < k1x then none
    else if k0x < 0 ∨ kmax < k0x then some (k1x, kmax)
    else some (k1x, k0x)
  else if k0x < 0 ∨ kmin < k0x then
    if k0x < 0 ∨ kmax < k0x then some (kmin, kmax)
    else some (kmin, k0x)
  else none

/-- The 50-sample integration loop of do_integral (geometry.c lines
685 and 702-722): inc = (kfinis - kstart)/SAMPLES and each sample adds
E * P * inc at kp = kstart + i * inc. -/
noncomputable def sample_sum (q2 zl R : ℝ) (sp : SpectrumM)
    (kstart kfinis : ℝ) : ℝ :=
  ∑ i ∈ Finset.range 50,
    spectrum_density sp (kstart + i * ((kfinis - kstart) / 50)) *
      rlp_profile q2 zl R (kstart + i * ((kfinis - kstart) / 50)) *
      ((kfinis - kstart) / 50)

/-- Translation of do_integral (geometry.c lines 623-739) with the verbose
file output disabled (the caller passes NULL).  The asserts at lines 634,
635, 654 and 655 become failure (none); k0 and k1 are the roots computed
at lines 638-639, with a negative value standing for +infinity; the final
guards at lines 682-683 replace a negative kstart or kfinis by the
spectrum range ends.  spectrum_get_range is spec-modelled as the stored
range of the spectrum (spectrum.c is not part of this tree). -/
noncomputable def do_integral (q2 zl R : ℝ) (sp : SpectrumM) : Option ℝ :=
  if ¬(R ^ 2 < q2) then none
  else if ¬(0 < R) then none
  else if ¬(sp.kmin < sp.kmax) then none
  else if ¬(k_assert_ok ((R ^ 2 - q2) / (2 * (zl + R)))
      ((R ^ 2 - q2) / (2 * (zl - R)))) then none
  else
    match integration_range ((R ^ 2 - q2) / (2 * (zl + R)))
        ((R ^ 2 - q2) / (2 * (zl - R))) sp.kmin sp.kmax with
    | none => some 0
    | some (ks, kf) =>
      some (sample_sum q2 zl R sp (if ks < 0 then sp.kmin else ks)
        (if kf < 0 then sp.kmax else kf))

/-- Translation of the per-reflection body of ginn_spectrum_partialities
(geometry.c lines 776-809): total over the reflection's own zl, the
normalisation over zl = -q2 lambda / 2, the stored partiality total/norm.
The assert(total <= 2.0*norm) at line 807 aborts the program, modelled as
none (it fires just after the store, so no chunk with the value is ever
written). -/
noncomputable def ginn_partiality (q2 zl R lam : ℝ) (sp : SpectrumM) :
    Option ℝ :=
  match do_integral q2 zl R sp with
  | none => none
  | some total =>
    match do_integral q2 (-(1 / 2) * q2 * lam) R sp with
    | none => none
    | some nrm =>
      if total ≤ 2 * nrm then some (total / nrm) else none

/-- Translation of the reflection-dependent inputs of
ginn_spectrum_partialities (geometry.c lines 786-794): the
reciprocal-space position from the reciprocal cell rows and the Miller
indices, q2 its squared length, and the profile radius R = r0 + m |q|. -/
noncomputable def ginn_refl_partiality (asr bsr csr : ℝ × ℝ × ℝ)
    (hidx kidx lidx : ℤ) (r0 m lam : ℝ) (sp : SpectrumM) : Option ℝ :=
  let xl := hidx * asr.1 + kidx * bsr.1 + lidx * csr.1
  let yl := hidx * asr.2.1 + kidx * bsr.2.1 + lidx * csr.2.1
  let zl := hidx * asr.2.2 + kidx * bsr.2.2 + lidx * csr.2.2
  let q2 := xl ^ 2 + yl ^ 2 + zl ^ 2
  ginn_partiality q2 zl (r0 + m * Real.sqrt q2) lam sp

theorem spectrum_density_nonneg (sp : SpectrumM)
    (hg : ∀ g ∈ sp.gaussians, 0 < g.sigma ∧ 0 ≤ g.area) (k : ℝ) :
    0 ≤ spectrum_density sp k := by
  rw [spectrum_density]
  apply List.sum_nonneg
  intro x hx
  obtain ⟨g, hgmem, rfl⟩ := List.mem_map.mp hx
  obtain ⟨hs, ha⟩ := hg g hgmem
  apply div_nonneg
  · exact mul_nonneg ha (Real.exp_nonneg _)
  · exact mul_nonneg (le_of_lt hs) (Real.sqrt_nonneg _)

theorem rlp_profile_nonneg (q2 zl R kp : ℝ) (hR : 0 < R)
    (hq : R ^ 2 < q2) (hzl : zl < -R)
    (hk1 : (R ^ 2 - q2) / (2 * (zl - R)) ≤ kp)
    (hk0 : kp ≤ (R ^ 2 - q2) / (2 * (zl + R))) :
    0 ≤ rlp_profile q2 zl R kp := by
  have hd1 : 2 * (zl - R) < 0 := by linarith
  have hd0 : 2 * (zl + R) < 0 := by linarith
  rw [div_le_iff_of_neg hd1] at hk1
  rw [le_div_iff_of_neg hd0] at hk0
  have hkp : 0 < kp := by nlinarith
  have hupper : q2 + kp ^ 2 + 2 * zl * kp ≤ (kp + R) ^ 2 := by nlinarith
  have hlower : (kp - R) ^ 2 ≤ q2 + kp ^ 2 + 2 * zl * kp := by nlinarith
  have hs1 : Real.sqrt (q2 + kp ^ 2 + 2 * zl * kp) ≤ kp + R := by
    calc Real.sqrt (q2 + kp ^ 2 + 2 * zl * kp)
        ≤ Real.sqrt ((kp + R) ^ 2) := Real.sqrt_le_sqrt hupper
      _ = kp + R := Real.sqrt_sq (by linarith)
  have hs2 : kp - R ≤ Real.sqrt (q2 + kp ^ 2 + 2 * zl * kp) := by
    rcases le_or_lt (kp - R) 0 with hc | hc
    · exact le_trans hc (Real.sqrt_nonneg _)
    · calc kp - R = Real.sqrt ((kp - R) ^ 2) :=
          (Real.sqrt_sq (le_of_lt hc)).symm
        _ ≤ _ := Real.sqrt_le_sqrt hlower
  rw [rlp_profile]
  have hkey : 4 * (Real.sqrt (q2 + kp ^ 2 + 2 * zl * kp) / (2 * R) + 1 / 2 -
      kp / (2 * R)) *
      (1 - (Real.sqrt (q2 + kp ^ 2 + 2 * zl * kp) / (2 * R) + 1 / 2 -
        kp / (2 * R))) =
      (Real.sqrt (q2 + kp ^ 2 + 2 * zl * kp) + R - kp) *
        (2 * R - (Real.sqrt (q2 + kp ^ 2 + 2 * zl * kp) + R - kp)) /
        R ^ 2 := by
    field_simp
    ring
  rw [hkey]
  apply div_nonneg
  · apply mul_nonneg
    · linarith
    · linarith
  · positivity

theorem integration_range_spec {k0x k1x kmin kmax ks kf : ℝ}
    (hk0 : 0 < k0x) (hk1 : 0 < k1x) (hkk : k1x < k0x) (hmm : kmin < kmax)
    (h : integration_range k0x k1x kmin kmax = some (ks, kf)) :
    k1x ≤ ks ∧ ks ≤ kf ∧ kf ≤ k0x ∧ 0 < ks := by
  rw [integration_range] at h
  have hnk0 : ¬(k0x < 0) := not_lt.mpr (le_of_lt hk0)
  have hnk1 : ¬(k1x < 0) := not_lt.mpr (le_of_lt hk1)
  split at h
  · rename_i hc1
    split at h
    · exact absurd h (Option.noConfusion)
    · rename_i hc2
      split at h
      · rename_i hc3
        rw [Option.some.injEq, Prod.mk.injEq] at h
        obtain ⟨rfl, rfl⟩ := h
        have : ¬(kmax < k1x) := fun hx => hc2 (Or.inr hx)
        have : k1x ≤ kmax := not_lt.mp this
        rcases hc3 with hx | hx
        · exact absurd hx hnk0
        · exact ⟨le_refl _, by linarith, by linarith, hk1⟩
      · rename_i hc3
        rw [Option.some.injEq, Prod.mk.injEq] at h
        obtain ⟨rfl, rfl⟩ := h
        exact ⟨le_refl _, le_of_lt hkk, le_refl _, hk1⟩
  · rename_i hc1
    split at h
    · rename_i hc2
      have hge : k1x ≤ kmin := by
        rcases not_or.mp hc1 with ⟨_, hx⟩
        exact not_lt.mp hx
      split at h
      · rename_i hc3
        rw [Option.some.injEq, Prod.mk.injEq] at h
        obtain ⟨rfl, rfl⟩ := h
        rcases hc3 with hx | hx
        · exact absurd hx hnk0
        · exact ⟨hge, le_of_lt hmm, le_of_lt hx, by linarith⟩
      · rename_i hc3
        rw [Option.some.injEq, Prod.mk.injEq] at h
        obtain ⟨rfl, rfl⟩ := h
        rcases hc2 with hx | hx
        · exact absurd hx hnk0
        · exact ⟨hge, le_of_lt hx, le_refl _, by linarith⟩
    · exact absurd h (Option.noConfusion)

theorem sample_sum_nonneg (q2 zl R : ℝ) (sp : SpectrumM) (ks kf : ℝ)
    (hE : ∀ k, 0 ≤ spectrum_density sp k) (hks : ks ≤ kf)
    (hP : ∀ kp, ks ≤ kp → kp ≤ kf → 0 ≤ rlp_profile q2 zl R kp) :
    0 ≤ sample_sum q2 zl R sp ks kf := by
  rw [sample_sum]
  apply Finset.sum_nonneg
  intro i hi
  have hi49 : (i : ℝ) ≤ 49 := by
    have := Finset.mem_range.mp hi
    exact_mod_cast Nat.le_of_lt_succ this
  have hinc : 0 ≤ (kf - ks) / 50 := by linarith
  have hlo : ks ≤ ks + i * ((kf - ks) / 50) := by
    have : 0 ≤ (i : ℝ) * ((kf - ks) / 50) :=
      mul_nonneg (Nat.cast_nonneg i) hinc
    linarith
  have hhi : ks + i * ((kf - ks) / 50) ≤ kf := by
    have : (i : ℝ) * ((kf - ks) / 50) ≤ 49 * ((kf - ks) / 50) :=
      mul_le_mul_of_nonneg_right hi49 hinc
    nlinarith
  exact mul_nonneg (mul_nonneg (hE _) (hP _ hlo hhi)) hinc

theorem do_integral_nonneg (q2 zl R : ℝ) (sp : SpectrumM) (τ : ℝ)
    (hg : ∀ g ∈ sp.gaussians, 0 < g.sigma ∧ 0 ≤ g.area)
    (hzl : zl < -R)
    (h : do_integral q2 zl R sp = some τ) : 0 ≤ τ := by
  rw [do_integral] at h
  split at h
  · exact absurd h (Option.noConfusion)
  · rename_i hq2
    rw [not_not] at hq2
    split at h
    · exact absurd h (Option.noConfusion)
    · rename_i hR
      rw [not_not] at hR
      split at h
      · exact absurd h (Option.noConfusion)
      · rename_i hmm
        rw [not_not] at hmm
        split at h
        · exact absurd h (Option.noConfusion)
        · rename_i hassert
          rw [not_not] at hassert
          have hd1 : 2 * (zl - R) < 0 := by linarith
          have hd0 : 2 * (zl + R) < 0 := by linarith
          have hnum : R ^ 2 - q2 < 0 := by linarith
          have hk0pos : 0 < (R ^ 2 - q2) / (2 * (zl + R)) :=
            div_pos_of_neg_of_neg hnum hd0
          have hk1pos : 0 < (R ^ 2 - q2) / (2 * (zl - R)) :=
            div_pos_of_neg_of_neg hnum hd1
          have hkk : (R ^ 2 - q2) / (2 * (zl - R)) <
              (R ^ 2 - q2) / (2 * (zl + R)) := by
            rcases hassert with ⟨hx, _⟩ | ⟨hx, _⟩ | ⟨_, _, hx⟩
            · exact absurd hx (not_lt.mpr (le_of_lt hk0pos))
            · exact absurd hx (not_lt.mpr (le_of_lt hk0pos))
            · exact hx
          split at h
          · rw [Option.some.injEq] at h
            subst h
            exact le_refl 0
          · rename_i ks kf heq
            have hspec := integration_range_spec hk0pos hk1pos hkk hmm heq
            obtain ⟨hks1, hksf, hkf0, hkspos⟩ := hspec
            have hkfpos : 0 < kf := lt_of_lt_of_le hkspos hksf
            rw [if_neg (not_lt.mpr (le_of_lt hkspos)),
              if_neg (not_lt.mpr (le_of_lt hkfpos))] at h
            rw [Option.some.injEq] at h
            subst h
            apply sample_sum_nonneg
            · exact spectrum_density_nonneg sp hg
            · exact hksf
            · intro kp hlo hhi
              exact rlp_profile_nonneg q2 zl R kp hR hq2 hzl
                (by linarith) (by linarith)

/-- Claim C8, amended: for every reflection whose XSphere partiality
computation completes (no assert fires), whose reciprocal-lattice point
lies in front of the Ewald sphere (zl < -R), and whose normalisation
integral is positive, the stored partiality total/norm lies in [0, 2] —
not in [0, 1]: the code only asserts total <= 2 norm, and values above 1
occur. -/
theorem xsphere_partiality_in_zero_two (q2 zl R lam p ν : ℝ)
    (sp : SpectrumM)
    (hg : ∀ g ∈ sp.gaussians, 0 < g.sigma ∧ 0 ≤ g.area)
    (hzl : zl < -R)
    (h : ginn_partiality q2 zl R lam sp = some p)
    (hn : do_integral q2 (-(1 / 2) * q2 * lam) R sp = some ν)
    (hν : 0 < ν) :
    0 ≤ p ∧ p ≤ 2 := by
  rw [ginn_partiality] at h
  split at h
  · exact absurd h (Option.noConfusion)
  · rename_i τ hτ
    split at h
    · rename_i heq2
      rw [heq2] at hn
      exact absurd hn (Option.noConfusion)
    · rename_i ν2 heq2
      rw [heq2, Option.some.injEq] at hn
      subst hn
      split at h
      · rename_i hle
        rw [Option.some.injEq] at h
        subst h
        have hτ0 : 0 ≤ τ := do_integral_nonneg q2 zl R sp τ hg hzl hτ
        constructor
        · exact div_nonneg hτ0 (le_of_lt hν)
        · rw [div_le_iff hν]
          linarith
      · exact absurd h (Option.noConfusion)

/-- The spectrum of the counterexample: one Gaussian centred at 0.6255
with sigma 0.0001 and unit area, with the stored significant range
[0.625, 0.626] (the centre plus or minus five sigma). -/
noncomputable def c8sp : SpectrumM :=
  { gaussians := [{ kcen := 1251 / 2000, sigma := 1 / 10000, area := 1 }],
    kmin := 5 / 8, kmax := 313 / 500 }

/-- The total integral of the counterexample reflection (zl = -4/5). -/
noncomputable def c8total : ℝ :=
  sample_sum 1 (-(4 / 5)) (1 / 10) c8sp (5 / 8) (313 / 500)

/-- The normalisation integral of the counterexample reflection
(zl = -q2 lambda / 2 = -2621/3125). -/
noncomputable def c8nrm : ℝ :=
  sample_sum 1 (-(2621 / 3125)) (1 / 10) c8sp (5 / 8) (313 / 500)

theorem c8_density_pos (k : ℝ) : 0 < spectrum_density c8sp k := by
  simp only [spectrum_density, c8sp, List.map_cons, List.map_nil,
    List.sum_cons, List.sum_nil, add_zero]
  positivity

theorem c8_pt_bounds (kp : ℝ) (h1 : 5 / 8 ≤ kp) (h2 : kp ≤ 313 / 500) :
    99 / 100 ≤ rlp_profile 1 (-(4 / 5)) (1 / 10) kp ∧
    rlp_profile 1 (-(4 / 5)) (1 / 10) kp ≤ 1 := by
  have hub : 1 + kp ^ 2 + 2 * -(4 / 5) * kp ≤ kp ^ 2 := by nlinarith
  have hlb : (kp - 1 / 500) ^ 2 ≤ 1 + kp ^ 2 + 2 * -(4 / 5) * kp := by
    nlinarith
  have hkp0 : (0 : ℝ) ≤ kp := by linarith
  have hs_ub : Real.sqrt (1 + kp ^ 2 + 2 * -(4 / 5) * kp) ≤ kp := by
    calc Real.sqrt (1 + kp ^ 2 + 2 * -(4 / 5) * kp)
        ≤ Real.sqrt (kp ^ 2) := Real.sqrt_le_sqrt hub
      _ = kp := Real.sqrt_sq hkp0
  have hs_lb : kp - 1 / 500 ≤
      Real.sqrt (1 + kp ^ 2 + 2 * -(4 / 5) * kp) := by
    calc kp - 1 / 500 = Real.sqrt ((kp - 1 / 500) ^ 2) :=
        (Real.sqrt_sq (by linarith)).symm
      _ ≤ _ := Real.sqrt_le_sqrt hlb
  rw [rlp_profile]
  set s := Real.sqrt (1 + kp ^ 2 + 2 * -(4 / 5) * kp) with hs
  have e1 : s / (2 * ((1 : ℝ) / 10)) + 1 / 2 - kp / (2 * ((1 : ℝ) / 10))
      = 5 * s + 1 / 2 - 5 * kp := by ring
  rw [e1]
  have hplo : 49 / 100 ≤ 5 * s + 1 / 2 - 5 * kp := by linarith
  have hphi : 5 * s + 1 / 2 - 5 * kp ≤ 1 / 2 := by linarith
  constructor
  · nlinarith [mul_nonneg (sub_nonneg.mpr hplo) (sub_nonneg.mpr hphi)]
  · nlinarith [sq_nonneg (2 * (5 * s + 1 / 2 - 5 * kp) - 1)]

theorem c8_pn_bounds (kp : ℝ) (h1 : 5 / 8 ≤ kp) (h2 : kp ≤ 313 / 500) :
    41 / 50 ≤ rlp_profile 1 (-(2621 / 3125)) (1 / 10) kp ∧
    rlp_profile 1 (-(2621 / 3125)) (1 / 10) kp ≤ 22 / 25 := by
  have hub : 1 + kp ^ 2 + 2 * -(2621 / 3125) * kp ≤ (kp - 19 / 500) ^ 2 := by
    nlinarith
  have hlb : (kp - 21 / 500) ^ 2 ≤
      1 + kp ^ 2 + 2 * -(2621 / 3125) * kp := by
    nlinarith
  have hs_ub : Real.sqrt (1 + kp ^ 2 + 2 * -(2621 / 3125) * kp)
      ≤ kp - 19 / 500 := by
    calc Real.sqrt (1 + kp ^ 2 + 2 * -(2621 / 3125) * kp)
        ≤ Real.sqrt ((kp - 19 / 500) ^ 2) := Real.sqrt_le_sqrt hub
      _ = kp - 19 / 500 := Real.sqrt_sq (by linarith)
  have hs_lb : kp - 21 / 500 ≤
      Real.sqrt (1 + kp ^ 2 + 2 * -(2621 / 3125) * kp) := by
    calc kp - 21 / 500 = Real.sqrt ((kp - 21 / 500) ^ 2) :=
        (Real.sqrt_sq (by linarith)).symm
      _ ≤ _ := Real.sqrt_le_sqrt hlb
  rw [rlp_profile]
  set s := Real.sqrt (1 + kp ^ 2 + 2 * -(2621 / 3125) * kp) with hs
  have e1 : s / (2 * ((1 : ℝ) / 10)) + 1 / 2 - kp / (2 * ((1 : ℝ) / 10))
      = 5 * s + 1 / 2 - 5 * kp := by ring
  rw [e1]
  have hplo : 29 / 100 ≤ 5 * s + 1 / 2 - 5 * kp := by linarith
  have hphi : 5 * s + 1 / 2 - 5 * kp ≤ 31 / 100 := by linarith
  constructor
  · nlinarith [mul_nonneg (sub_nonneg.mpr hplo) (sub_nonneg.mpr hphi)]
  · nlinarith [sq_nonneg (5 * s + 1 / 2 - 5 * kp - 31 / 100)]

theorem sample_kp_bounds {ks kf : ℝ} (hks : ks ≤ kf) {i : ℕ}
    (hi : i ∈ Finset.range 50) :
    ks ≤ ks + i * ((kf - ks) / 50) ∧ ks + i * ((kf - ks) / 50) ≤ kf := by
  have hi49 : (i : ℝ) ≤ 49 := by
    exact_mod_cast Nat.le_of_lt_succ (Finset.mem_range.mp hi)
  have hinc : 0 ≤ (kf - ks) / 50 := by linarith
  constructor
  · have : 0 ≤ (i : ℝ) * ((kf - ks) / 50) :=
      mul_nonneg (Nat.cast_nonneg i) hinc
    linarith
  · have : (i : ℝ) * ((kf - ks) / 50) ≤ 49 * ((kf - ks) / 50) :=
      mul_le_mul_of_nonneg_right hi49 hinc
    nlinarith

theorem sample_sum_lt_sample_sum (q2 zlA zlB R ks kf : ℝ)
    (sp : SpectrumM) (hE : ∀ k, 0 < spectrum_density sp k) (hks : ks < kf)
    (hPP : ∀ kp, ks ≤ kp → kp ≤ kf →
      rlp_profile q2 zlA R kp < rlp_profile q2 zlB R kp) :
    sample_sum q2 zlA R sp ks kf < sample_sum q2 zlB R sp ks kf := by
  rw [sample_sum, sample_sum]
  apply Finset.sum_lt_sum_of_nonempty
  · exact Finset.nonempty_range_iff.mpr (by norm_num)
  · intro i hi
    obtain ⟨hlo, hhi⟩ := sample_kp_bounds (le_of_lt hks) hi
    have hinc : 0 < (kf - ks) / 50 := by linarith
    exact mul_lt_mul_of_pos_right
      (mul_lt_mul_of_pos_left (hPP _ hlo hhi) (hE _)) hinc

theorem sample_sum_le_two_mul (q2 zlA zlB R ks kf : ℝ) (sp : SpectrumM)
    (hE : ∀ k, 0 ≤ spectrum_density sp k) (hks : ks ≤ kf)
    (hPP : ∀ kp, ks ≤ kp → kp ≤ kf →
      rlp_profile q2 zlB R kp ≤ 2 * rlp_profile q2 zlA R kp) :
    sample_sum q2 zlB R sp ks kf ≤ 2 * sample_sum q2 zlA R sp ks kf := by
  rw [sample_sum, sample_sum, Finset.mul_sum]
  apply Finset.sum_le_sum
  intro i hi
  obtain ⟨hlo, hhi⟩ := sample_kp_bounds hks hi
  have hinc : 0 ≤ (kf - ks) / 50 := by linarith
  have h1 : spectrum_density sp (ks + i * ((kf - ks) / 50)) *
      rlp_profile q2 zlB R (ks + i * ((kf - ks) / 50)) *
      ((kf - ks) / 50) ≤
      spectrum_density sp (ks + i * ((kf - ks) / 50)) *
      (2 * rlp_profile q2 zlA R (ks + i * ((kf - ks) / 50))) *
      ((kf - ks) / 50) :=
    mul_le_mul_of_nonneg_right
      (mul_le_mul_of_nonneg_left (hPP _ hlo hhi) (hE _)) hinc
  calc spectrum_density sp (ks + i * ((kf - ks) / 50)) *
      rlp_profile q2 zlB R (ks + i * ((kf - ks) / 50)) *
      ((kf - ks) / 50)
      ≤ spectrum_density sp (ks + i * ((kf - ks) / 50)) *
        (2 * rlp_profile q2 zlA R (ks + i * ((kf - ks) / 50))) *
        ((kf - ks) / 50) := h1
    _ = 2 * (spectrum_density sp (ks + i * ((kf - ks) / 50)) *
        rlp_profile q2 zlA R (ks + i * ((kf - ks) / 50)) *
        ((kf - ks) / 50)) := by ring

theorem sample_sum_pos (q2 zl R ks kf : ℝ) (sp : SpectrumM)
    (hE : ∀ k, 0 < spectrum_density sp k) (hks : ks < kf)
    (hP : ∀ kp, ks ≤ kp → kp ≤ kf → 0 < rlp_profile q2 zl R kp) :
    0 < sample_sum q2 zl R sp ks kf := by
  rw [sample_sum]
  apply Finset.sum_pos
  · intro i hi
    obtain ⟨hlo, hhi⟩ := sample_kp_bounds (le_of_lt hks) hi
    have hinc : 0 < (kf - ks) / 50 := by linarith
    exact mul_pos (mul_pos (hE _) (hP _ hlo hhi)) hinc
  · exact Finset.nonempty_range_iff.mpr (by norm_num)

theorem c8_nrm_pos : 0 < c8nrm := by
  rw [c8nrm]
  apply sample_sum_pos
  · exact c8_density_pos
  · norm_num
  · intro kp hlo hhi
    have := (c8_pn_bounds kp hlo hhi).1
    linarith

theorem c8_nrm_lt_total : c8nrm < c8total := by
  rw [c8nrm, c8total]
  apply sample_sum_lt_sample_sum
  · exact c8_density_pos
  · norm_num
  · intro kp hlo hhi
    have ha := (c8_pn_bounds kp hlo hhi).2
    have hb := (c8_pt_bounds kp hlo hhi).1
    linarith

theorem c8_total_le_two_nrm : c8total ≤ 2 * c8nrm := by
  rw [c8nrm, c8total]
  apply sample_sum_le_two_mul
  · intro k
    exact le_of_lt (c8_density_pos k)
  · norm_num
  · intro kp hlo hhi
    have ha := (c8_pn_bounds kp hlo hhi).1
    have hb := (c8_pt_bounds kp hlo hhi).2
    linarith

theorem c8_total_eq : do_integral 1 (-(4 / 5)) (1 / 10) c8sp
    = some c8total := by
  rw [do_integral]
  have g1 : ¬¬(((1 : ℝ) / 10) ^ 2 < 1) := by norm_num
  have g2 : ¬¬((0 : ℝ) < 1 / 10) := by norm_num
  have g3 : ¬¬(c8sp.kmin < c8sp.kmax) := by norm_num [c8sp]
  have g4 : ¬¬(k_assert_ok
      ((((1 : ℝ) / 10) ^ 2 - 1) / (2 * (-(4 / 5) + 1 / 10)))
      ((((1 : ℝ) / 10) ^ 2 - 1) / (2 * (-(4 / 5) - 1 / 10)))) := by
    rw [not_not]
    norm_num [k_assert_ok]
  rw [if_neg g1, if_neg g2, if_neg g3, if_neg g4]
  have hrange : integration_range
      ((((1 : ℝ) / 10) ^ 2 - 1) / (2 * (-(4 / 5) + 1 / 10)))
      ((((1 : ℝ) / 10) ^ 2 - 1) / (2 * (-(4 / 5) - 1 / 10)))
      c8sp.kmin c8sp.kmax = some (5 / 8, 313 / 500) := by
    rw [integration_range]
    rw [if_neg (by norm_num [c8sp]), if_pos (by norm_num [c8sp]),
      if_pos (by norm_num [c8sp])]
    norm_num [c8sp]
  simp only [hrange]
  rw [if_neg (by norm_num : ¬((5 : ℝ) / 8 < 0)),
    if_neg (by norm_num : ¬((313 : ℝ) / 500 < 0))]
  rw [c8total]

theorem c8_nrm_eq : do_integral 1 (-(2621 / 3125)) (1 / 10) c8sp
    = some c8nrm := by
  rw [do_integral]
  have g1 : ¬¬(((1 : ℝ) / 10) ^ 2 < 1) := by norm_num
  have g2 : ¬¬((0 : ℝ) < 1 / 10) := by norm_num
  have g3 : ¬¬(c8sp.kmin < c8sp.kmax) := by norm_num [c8sp]
  have g4 : ¬¬(k_assert_ok
      ((((1 : ℝ) / 10) ^ 2 - 1) / (2 * (-(2621 / 3125) + 1 / 10)))
      ((((1 : ℝ) / 10) ^ 2 - 1) / (2 * (-(2621 / 3125) - 1 / 10)))) := by
    rw [not_not]
    norm_num [k_assert_ok]
  rw [if_neg g1, if_neg g2, if_neg g3, if_neg g4]
  have hrange : integration_range
      ((((1 : ℝ) / 10) ^ 2 - 1) / (2 * (-(2621 / 3125) + 1 / 10)))
      ((((1 : ℝ) / 10) ^ 2 - 1) / (2 * (-(2621 / 3125) - 1 / 10)))
      c8sp.kmin c8sp.kmax = some (5 / 8, 313 / 500) := by
    rw [integration_range]
    rw [if_neg (by norm_num [c8sp]), if_pos (by norm_num [c8sp]),
      if_pos (by norm_num [c8sp])]
    norm_num [c8sp]
  simp only [hrange]
  rw [if_neg (by norm_num : ¬((5 : ℝ) / 8 < 0)),
    if_neg (by norm_num : ¬((313 : ℝ) / 500 < 0))]
  rw [c8nrm]

theorem c8_ginn_eq : ginn_partiality 1 (-(4 / 5)) (1 / 10) (5242 / 3125)
    c8sp = some (c8total / c8nrm) := by
  rw [ginn_partiality]
  simp only [c8_total_eq]
  rw [show (-(1 / 2 : ℝ) * 1 * (5242 / 3125)) = -(2621 / 3125) by norm_num]
  simp only [c8_nrm_eq]
  rw [if_pos c8_total_le_two_nrm]

theorem c8_refl_eq : ginn_refl_partiality (1, 0, 0) (0, 1, 0)
    (0, 3 / 5, -(4 / 5)) 0 0 1 (1 / 10) 0 (5242 / 3125) c8sp
    = ginn_partiality 1 (-(4 / 5)) (1 / 10) (5242 / 3125) c8sp := by
  rw [ginn_refl_partiality]
  norm_num [Real.sqrt_one]

/-- Claim C8, counterexample: a reflection with reciprocal-space position
(0, 3/5, -4/5) (so q2 = 1), profile radius 0.1, zero mosaicity,
wavelength such that the normalisation places the lattice point slightly
off the Ewald sphere, and a narrow spectrum centred where the
reflection's own integral peaks, completes the XSphere computation and
stores a partiality strictly greater than 1. -/
theorem xsphere_partiality_above_one :
    ∃ p, ginn_refl_partiality (1, 0, 0) (0, 1, 0) (0, 3 / 5, -(4 / 5))
      0 0 1 (1 / 10) 0 (5242 / 3125) c8sp = some p ∧ 1 < p := by
  refine ⟨c8total / c8nrm, ?_, ?_⟩
  · rw [c8_refl_eq, c8_ginn_eq]
  · exact (one_lt_div c8_nrm_pos).mpr c8_nrm_lt_total

/-- Witness for the amended claim C8 at the concrete counterexample
reflection: all hypotheses hold there and the stored value lies in
[0, 2]. -/
theorem xsphere_partiality_in_zero_two_witness :
    (∀ g ∈ c8sp.gaussians, 0 < g.sigma ∧ 0 ≤ g.area) ∧
    ((-(4 / 5) : ℝ) < -(1 / 10)) ∧
    ginn_partiality 1 (-(4 / 5)) (1 / 10) (5242 / 3125) c8sp
      = some (c8total / c8nrm) ∧
    do_integral 1 (-(1 / 2) * 1 * (5242 / 3125)) (1 / 10) c8sp
      = some c8nrm ∧
    0 < c8nrm ∧
    (0 ≤ c8total / c8nrm ∧ c8total / c8nrm ≤ 2) := by
  have hg : ∀ g ∈ c8sp.gaussians, 0 < g.sigma ∧ 0 ≤ g.area := by
    intro g hgm
    simp only [c8sp, List.mem_singleton] at hgm
    subst hgm
    norm_num
  have hnrm : do_integral 1 (-(1 / 2) * 1 * (5242 / 3125)) (1 / 10) c8sp
      = some c8nrm := by
    rw [show (-(1 / 2 : ℝ) * 1 * (5242 / 3125)) = -(2621 / 3125)
      by norm_num]
    exact c8_nrm_eq
  refine ⟨hg, by norm_num, c8_ginn_eq, hnrm, c8_nrm_pos, ?_⟩
  exact xsphere_partiality_in_zero_two 1 (-(4 / 5)) (1 / 10) (5242 / 3125)
    (c8total / c8nrm) c8nrm c8sp hg (by norm_num) c8_ginn_eq hnrm
    c8_nrm_pos
